import Mathlib

/-!
Verification development for the incremental synchronization engine of the
bfx-report repository (`src/workers/loc.api/sync/data.inserter/index.js`)
and the JSON-RPC responder (`src/unnamed/part_000`).

The JavaScript source is shallowly embedded: each method becomes an
executable Lean function over explicit inputs standing for the gateway
responses, DAO lookups and mutable state the original code touches.
-/

namespace BfxReport

/-- A well-formed API record as seen by the sync engine: an object carrying an
integer date field (`item[dateFieldName]`), an optional string symbol field
(`item[symbolFieldName]`) and a tag distinguishing otherwise equal records. -/
structure Rec where
  date : Int
  symbol : Option String := none
  tag : Nat := 0
deriving DecidableEq, Repr

/-- One gateway response for `_insertApiDataArrObjTypeToDb`'s pagination loop:
`res` is `none` when the remote returned `null` or a non-array, otherwise the
page of records; `nextPage` is the optional next-page cursor. -/
structure Page where
  res : Option (List Rec)
  nextPage : Option Int
deriving DecidableEq, Repr

/-- JS truthiness combined with `Number.isInteger` for the next-page cursor:
`nextPage && Number.isInteger(nextPage)` holds exactly for a present,
non-zero integer. -/
def truthyInt : Option Int → Bool
  | some n => n != 0
  | none => false

/-- JS `Number.isInteger` on an optional integer argument. -/
def isIntOpt : Option Int → Bool
  | some _ => true
  | none => false

/-- JS `res.splice(k)` keeps the first `k` elements; a negative `k` counts from
the end (`Array.prototype.splice` clamps `len + k` at 0). -/
def spliceKeep (l : List Rec) (k : Int) : List Rec :=
  if k < 0 then l.take ((l.length : Int) + k).toNat else l.take k.toNat

/-- Observable effects of one fetch pass: the `end` parameter of each request
issued through `_getDataFromApi`, and each batch handed to
`dao.insertElemsToDb`, in order. -/
structure LoopOut where
  requests : List (Option Int)
  inserted : List (List Rec)
deriving DecidableEq, Repr

/-- The last element of a page, `res[res.length - 1]`, read through its date
field (`0` doubles as the JS `undefined` of an empty page, which the loop
never consults). -/
def lastDateOf : List Rec → Int
  | [] => 0
  | [r] => r.date
  | _ :: r :: rs => lastDateOf (r :: rs)

/-- Records with date at or after the window's start bound, in page order
(the filter `_args.params.start <= item[dateFieldName]` of line 591). -/
def filterGE (start : Int) (l : List Rec) : List Rec :=
  l.filter (fun r => decide (start ≤ r.date))

/-- Lines 587-598 of `_insertApiDataArrObjTypeToDb`: clip a fetched page at
the window's `start` bound, then truncate it to the remaining record budget.
Returns the batch to persist together with the `isAllData` flag. -/
def clipPage (start limit count : Int) (res : List Rec) : List Rec × Bool :=
  let res1 := if start ≥ lastDateOf res then filterGE start res else res
  let trunc := limit < count + (res1.length : Int)
  let res2 := if trunc then spliceKeep res1 (limit - count) else res1
  (res2, decide (start ≥ lastDateOf res) || decide trunc)

/-- The `while (true)` pagination loop of `_insertApiDataArrObjTypeToDb`
(lines 549-621), consuming one gateway response per iteration.  State
arguments mirror the JS locals: the current `currIterationArgs.params.end`,
`count`, and `serialRequestsCount`.  `start` and `limit` are the fixed
`_args.params.start` / `_args.params.limit`.  An exhausted response list
models the run being cut while still awaiting the gateway. -/
def insertLoop (start limit : Int) : Option Int → Int → Nat → List Page → LoopOut
  | _, _, _, [] => ⟨[], []⟩
  | endArg, count, serial, p :: rest =>
    -- currIterationArgs.params.end = nextPage
    let endArg1 := p.nextPage
    if p.res = some [] ∧ truthyInt p.nextPage = true ∧ serial < 1 then
      -- transient empty page: serialRequestsCount += 1; continue
      let out := insertLoop start limit endArg1 count (serial + 1) rest
      ⟨endArg :: out.requests, out.inserted⟩
    else
      match p.res with
      | none => ⟨[endArg], []⟩
      | some [] => ⟨[endArg], []⟩
      | some (r0 :: rs) =>
        let res := r0 :: rs
        -- `!lastItem[dateFieldName]`: an integer date field is falsy exactly at 0
        if lastDateOf res = 0 then ⟨[endArg], []⟩
        else
          let res2 := (clipPage start limit count res).1
          let isAllData := (clipPage start limit count res).2
          let count2 := count + (res2.length : Int)
          if isAllData = true ∨ limit - count2 ≤ 0 ∨ truthyInt p.nextPage = false then
            ⟨[endArg], [res2]⟩
          else
            -- dead in practice: end was just set to an integer nextPage
            let endArg2 := if isIntOpt endArg1 = true then endArg1 else some (lastDateOf res - 1)
            let out := insertLoop start limit endArg2 count2 0 rest
            ⟨endArg :: out.requests, res2 :: out.inserted⟩

/-- Entry point of `_insertApiDataArrObjTypeToDb` for an insertable
array-of-objects schema: the loop starts with `count = 0`,
`serialRequestsCount = 0` and the caller-supplied window. -/
def insertApiDataArrObjTypeToDb (start limit : Int) (endArg : Option Int)
    (pages : List Page) : LoopOut :=
  insertLoop start limit endArg 0 0 pages

/-- Total number of records handed to `dao.insertElemsToDb` over a pass. -/
def totalInserted (out : LoopOut) : Nat :=
  (out.inserted.map List.length).sum

example :
    insertApiDataArrObjTypeToDb 0 10 (some 100)
      [⟨some [⟨5, none, 0⟩, ⟨3, none, 1⟩], some 2⟩, ⟨some [⟨2, none, 2⟩], none⟩] =
    ⟨[some 100, some 2], [[⟨5, none, 0⟩, ⟨3, none, 1⟩], [⟨2, none, 2⟩]]⟩ := by decide

example :
    insertApiDataArrObjTypeToDb 0 3 (some 100)
      [⟨some [⟨5, none, 0⟩, ⟨4, none, 1⟩], some 3⟩, ⟨some [⟨3, none, 2⟩, ⟨2, none, 3⟩], some 1⟩] =
    ⟨[some 100, some 3], [[⟨5, none, 0⟩, ⟨4, none, 1⟩], [⟨3, none, 2⟩]]⟩ := by decide

example :
    insertApiDataArrObjTypeToDb 0 10 (some 100)
      [⟨some [], some 7⟩, ⟨some [], some 7⟩] =
    ⟨[some 100, some 7], []⟩ := by decide

lemma spliceKeep_length_le (l : List Rec) (k : Int) (hk : 0 ≤ k) :
    ((spliceKeep l k).length : Int) ≤ k := by
  simp only [spliceKeep, if_neg (not_lt.mpr hk), List.length_take]
  omega

lemma mem_of_mem_spliceKeep {x : Rec} {l : List Rec} {k : Int}
    (h : x ∈ spliceKeep l k) : x ∈ l := by
  simp only [spliceKeep] at h
  split at h <;> exact List.mem_of_mem_take h

/-- Record-budget bound of the clip/truncate step: starting below the limit,
the batch produced for persistence never pushes the count past the limit. -/
lemma clipPage_count_le (start limit count : Int) (res : List Rec) (h : count ≤ limit) :
    count + (((clipPage start limit count res).1.length : Int)) ≤ limit := by
  unfold clipPage
  dsimp only
  set res1 := if start ≥ lastDateOf res then filterGE start res else res with hres1
  by_cases htr : limit < count + (res1.length : Int)
  · rw [if_pos htr]
    have := spliceKeep_length_le res1 (limit - count) (by omega)
    omega
  · rw [if_neg htr]
    omega

/-- Invariant of the pagination loop: the running `count` plus everything the
remaining iterations persist never exceeds the record limit. -/
lemma insertLoop_count_le (start limit : Int) :
    ∀ (pages : List Page) (endArg : Option Int) (count : Int) (serial : Nat),
      count ≤ limit →
      count + (totalInserted (insertLoop start limit endArg count serial pages) : Int) ≤ limit := by
  intro pages
  induction pages with
  | nil =>
    intro e c s h
    simpa [insertLoop, totalInserted] using h
  | cons p rest ih =>
    intro e c s h
    rw [insertLoop]
    split
    · -- transient empty page: recurse with unchanged count
      simpa [totalInserted] using ih p.nextPage c (s + 1) h
    · split
      · simpa [totalInserted] using h
      · simpa [totalInserted] using h
      · rename_i hretry hres r0 rs heq
        dsimp only
        split
        · simpa [totalInserted] using h
        · rename_i hdate
          have hclip := clipPage_count_le start limit c (r0 :: rs) h
          split
          · -- break after persisting this page
            simp only [totalInserted, List.map_cons, List.map_nil, List.sum_cons,
              List.sum_nil, Nat.add_zero]
            omega
          · -- continue with count2 strictly below the limit
            rename_i hcont
            push_neg at hcont
            obtain ⟨h1, h2, h3⟩ := hcont
            simp only [totalInserted, List.map_cons, List.sum_cons]
            have hrec := ih (if isIntOpt p.nextPage = true then p.nextPage
                else some (lastDateOf (r0 :: rs) - 1))
              (c + (((clipPage start limit c (r0 :: rs)).1.length : Int))) 0 (by omega)
            simp only [totalInserted] at hrec
            omega

/-- The total persisted by one fetch pass never exceeds the record limit. -/
lemma insertApiData_le (start limit : Int) (endArg : Option Int)
    (pages : List Page) (h : 0 ≤ limit) :
    (totalInserted (insertApiDataArrObjTypeToDb start limit endArg pages) : Int) ≤ limit := by
  have := insertLoop_count_le start limit pages endArg 0 0 h
  simpa [insertApiDataArrObjTypeToDb] using this

/-- Remote records arrive newest first: each record's date strictly exceeds
the next one's. -/
def sortedDesc (l : List Rec) : Prop :=
  List.Chain' (fun a b => b.date < a.date) l

/-- A gateway that serves chunk `c` as the response to one pagination
request: a well-formed page holding exactly `c`, non-empty, with a usable
(non-zero integer) next-page cursor. -/
def PageFor (c : List Rec) (p : Page) : Prop :=
  p.res = some c ∧ c ≠ [] ∧ truthyInt p.nextPage = true

lemma spliceKeep_of_nonneg (l : List Rec) (k : Int) (hk : 0 ≤ k) :
    spliceKeep l k = l.take k.toNat := by
  simp [spliceKeep, not_lt.mpr hk]

lemma lastDateOf_mem (a : Rec) (t : List Rec) :
    ∃ x, x ∈ a :: t ∧ lastDateOf (a :: t) = x.date := by
  induction t generalizing a with
  | nil => exact ⟨a, by simp, rfl⟩
  | cons b u ih =>
    obtain ⟨x, hx, hd⟩ := ih b
    exact ⟨x, by simp only [List.mem_cons] at hx ⊢; tauto, hd⟩

lemma sortedDesc_le_head (a : Rec) (t : List Rec) (h : sortedDesc (a :: t)) :
    ∀ x ∈ a :: t, x.date ≤ a.date := by
  induction t generalizing a with
  | nil =>
    intro x hx
    simp only [List.mem_cons, List.not_mem_nil, or_false] at hx
    subst hx; exact le_refl _
  | cons b u ih =>
    rw [sortedDesc, List.chain'_cons] at h
    obtain ⟨hab, ht⟩ := h
    intro x hx
    rcases List.mem_cons.mp hx with rfl | hx'
    · exact le_refl _
    · have := ih b ht x hx'
      omega

lemma sortedDesc_last_le (a : Rec) (t : List Rec) (h : sortedDesc (a :: t)) :
    ∀ x ∈ a :: t, lastDateOf (a :: t) ≤ x.date := by
  induction t generalizing a with
  | nil =>
    intro x hx
    simp only [List.mem_cons, List.not_mem_nil, or_false] at hx
    subst hx; exact le_refl _
  | cons b u ih =>
    rw [sortedDesc, List.chain'_cons] at h
    obtain ⟨hab, ht⟩ := h
    intro x hx
    have hstep : lastDateOf (a :: b :: u) = lastDateOf (b :: u) := rfl
    rcases List.mem_cons.mp hx with rfl | hx'
    · have hb := ih b ht b (by simp)
      rw [hstep]; omega
    · rw [hstep]; exact ih b ht x hx'

lemma getLast?_date (a : Rec) (t : List Rec) :
    ∃ x, (a :: t).getLast? = some x ∧ x.date = lastDateOf (a :: t) := by
  induction t generalizing a with
  | nil => exact ⟨a, by simp, rfl⟩
  | cons b u ih =>
    obtain ⟨x, hx, hd⟩ := ih b
    exact ⟨x, by rw [List.getLast?_cons_cons]; exact hx, hd⟩

lemma filterGE_append (s : Int) (l₁ l₂ : List Rec) :
    filterGE s (l₁ ++ l₂) = filterGE s l₁ ++ filterGE s l₂ :=
  List.filter_append ..

lemma filterGE_eq_self {s : Int} {l : List Rec} (h : ∀ x ∈ l, s ≤ x.date) :
    filterGE s l = l :=
  List.filter_eq_self.mpr (fun a ha => by simpa using h a ha)

lemma filterGE_eq_nil {s : Int} {l : List Rec} (h : ∀ x ∈ l, x.date < s) :
    filterGE s l = [] :=
  List.filter_eq_nil_iff.mpr (fun a ha => by simpa using not_le.mpr (h a ha))

/-- Cap exactness of the pagination loop.  If the gateway serves a strictly
newest-first stream of well-dated records, chunked into non-empty pages with
usable cursors, and strictly more records at or after `start` remain than
the remaining budget allows, then the loop persists exactly the budgeted
prefix of the records with date ≥ `start`. -/
lemma insertLoop_exact (start limit : Int) :
    ∀ {cs : List (List Rec)} {pages : List Page},
      List.Forall₂ PageFor cs pages →
      ∀ (endArg : Option Int) (count : Int),
        sortedDesc cs.flatten →
        (∀ r ∈ cs.flatten, 0 < r.date) →
        count ≤ limit →
        limit - count < ((filterGE start cs.flatten).length : Int) →
        (insertLoop start limit endArg count 0 pages).inserted.flatten
          = (filterGE start cs.flatten).take (limit - count).toNat := by
  intro cs pages hf
  induction hf with
  | nil =>
    intro endArg count _ _ hcle hblt
    exfalso
    simp [filterGE] at hblt
    omega
  | @cons c p cs' ps' hcp hf' ih =>
    intro endArg count hsort hpos hcle hblt
    obtain ⟨hres, hcne, hcur⟩ := hcp
    obtain ⟨r0, rs, rfl⟩ : ∃ r0 rs, c = r0 :: rs := by
      cases c with
      | nil => exact absurd rfl hcne
      | cons x xs => exact ⟨x, xs, rfl⟩
    simp only [List.flatten_cons] at hsort hpos hblt ⊢
    have hsc : sortedDesc (r0 :: rs) := (List.chain'_append.mp hsort).1
    have hsj : sortedDesc cs'.flatten := (List.chain'_append.mp hsort).2.1
    have hcross := (List.chain'_append.mp hsort).2.2
    have hbelow : ∀ y ∈ cs'.flatten, y.date < lastDateOf (r0 :: rs) := by
      intro y hy
      obtain ⟨xl, hxl, hxd⟩ := getLast?_date r0 rs
      cases hj : cs'.flatten with
      | nil => rw [hj] at hy; simp at hy
      | cons y0 ys =>
        rw [hj] at hy
        have h0 : y0.date < xl.date := hcross xl (by simp [hxl]) y0 (by simp [hj])
        have hyle : y.date ≤ y0.date := sortedDesc_le_head y0 ys (by rwa [hj] at hsj) y hy
        omega
    obtain ⟨xl0, hxl0mem, hxl0d⟩ := lastDateOf_mem r0 rs
    have hlpos : 0 < lastDateOf (r0 :: rs) := by
      rw [hxl0d]
      exact hpos xl0 (by simpa using List.mem_append_left cs'.flatten hxl0mem)
    have hposj : ∀ r ∈ cs'.flatten, 0 < r.date := fun r hr =>
      hpos r (by simpa using List.mem_append_right (r0 :: rs) hr)
    rw [insertLoop]
    split
    · rename_i hx
      exfalso
      rw [hres] at hx
      simp at hx
    · split
      · rename_i heq; rw [hres] at heq; exact absurd heq (by simp)
      · rename_i heq; rw [hres] at heq; simp at heq
      · rename_i hretry r0' rs' heq
        rw [hres] at heq
        injection heq with heq2
        injection heq2 with ha hb
        subst ha; subst hb
        dsimp only
        rw [if_neg (by omega : ¬ lastDateOf (r0 :: rs) = 0)]
        by_cases hA : start ≥ lastDateOf (r0 :: rs)
        · -- boundary clip: everything further is older than `start`
          have hfj : filterGE start cs'.flatten = [] :=
            filterGE_eq_nil (fun y hy => lt_of_lt_of_le (hbelow y hy) hA)
          have hblt' : limit - count < ((filterGE start (r0 :: rs)).length : Int) := by
            rw [filterGE_append, hfj, List.append_nil] at hblt
            exact hblt
          have htr : limit < count + ((filterGE start (r0 :: rs)).length : Int) := by omega
          have hclip : clipPage start limit count (r0 :: rs)
              = ((filterGE start (r0 :: rs)).take (limit - count).toNat, true) := by
            unfold clipPage
            dsimp only
            rw [if_pos hA, if_pos htr, spliceKeep_of_nonneg _ _ (by omega)]
            rw [decide_eq_true hA, Bool.true_or]
          rw [hclip, if_pos (Or.inl rfl)]
          simp only [List.flatten_cons, List.flatten_nil, List.append_nil]
          rw [filterGE_append, hfj, List.append_nil]
        · -- no clip yet: the whole page is at or after `start`
          have hA' : start < lastDateOf (r0 :: rs) := by omega
          have hge : ∀ x ∈ (r0 :: rs), start ≤ x.date := by
            intro x hx
            have := sortedDesc_last_le r0 rs hsc x hx
            omega
          have hfc : filterGE start (r0 :: rs) = r0 :: rs := filterGE_eq_self hge
          by_cases htr : limit < count + (((r0 :: rs)).length : Int)
          · -- cap hit inside this page: truncate and stop
            have hclip : clipPage start limit count (r0 :: rs)
                = ((r0 :: rs).take (limit - count).toNat, true) := by
              unfold clipPage
              dsimp only
              rw [if_neg hA, if_pos htr, spliceKeep_of_nonneg _ _ (by omega)]
              rw [decide_eq_false hA, decide_eq_true htr, Bool.false_or]
            rw [hclip, if_pos (Or.inl rfl)]
            simp only [List.flatten_cons, List.flatten_nil, List.append_nil]
            rw [filterGE_append, hfc,
              List.take_append_of_le_length (by omega : (limit - count).toNat ≤ (r0 :: rs).length)]
          · -- page fits in the budget: persist it whole
            have hclip : clipPage start limit count (r0 :: rs) = (r0 :: rs, false) := by
              unfold clipPage
              dsimp only
              rw [if_neg hA, if_neg htr]
              rw [decide_eq_false hA, decide_eq_false htr, Bool.false_or]
            rw [hclip]
            by_cases hend : limit - (count + (((r0 :: rs).length : Nat) : Int)) ≤ 0
            · -- budget exactly consumed → break after persisting
              rw [if_pos (Or.inr (Or.inl hend))]
              simp only [List.flatten_cons, List.flatten_nil, List.append_nil]
              have hb : (limit - count).toNat = (r0 :: rs).length := by omega
              rw [filterGE_append, hfc, hb,
                List.take_append_of_le_length (le_refl _), List.take_length]
            · -- budget remains and a usable cursor exists → continue
              rw [if_neg (by
                intro hor
                rcases hor with h1 | h2 | h3
                · exact absurd h1 (by simp)
                · exact hend h2
                · rw [hcur] at h3; exact absurd h3 (by simp))]
              dsimp only
              have ihr := ih
                (if isIntOpt p.nextPage = true then p.nextPage
                  else some (lastDateOf (r0 :: rs) - 1))
                (count + (((r0 :: rs).length : Nat) : Int)) hsj hposj
                (by omega)
                (by
                  rw [filterGE_append, hfc, List.length_append] at hblt
                  push_cast at hblt ⊢
                  omega)
              simp only [List.flatten_cons]
              rw [ihr, filterGE_append, hfc]
              have hsplit : (limit - count).toNat
                  = (r0 :: rs).length + (limit - (count + (((r0 :: rs).length : Nat) : Int))).toNat := by
                omega
              rw [hsplit, List.take_append]

lemma mem_filterGE {s : Int} {l : List Rec} {r : Rec} (h : r ∈ filterGE s l) : s ≤ r.date := by
  simp only [filterGE, List.mem_filter, decide_eq_true_eq] at h
  exact h.2

lemma clipPage_mem_of_clip {start limit count : Int} {res : List Rec}
    (h : start ≥ lastDateOf res) :
    ∀ r ∈ (clipPage start limit count res).1, start ≤ r.date := by
  unfold clipPage
  dsimp only
  rw [if_pos h]
  intro r hr
  split at hr
  · exact mem_filterGE (mem_of_mem_spliceKeep hr)
  · exact mem_filterGE hr

lemma clipPage_snd_of_clip {start limit count : Int} {res : List Rec}
    (h : start ≥ lastDateOf res) : (clipPage start limit count res).2 = true := by
  unfold clipPage
  dsimp only
  rw [decide_eq_true h, Bool.true_or]

lemma length_flatten_inserted (out : LoopOut) :
    out.inserted.flatten.length = totalInserted out := by
  simp [totalInserted, List.length_flatten]

/-- C1.  The record cap of one fetch pass of `_insertApiDataArrObjTypeToDb`
is enforced exactly: (i) for every window and every sequence of gateway
pages, the total number of records handed to `dao.insertElemsToDb` over the
pass is at most `params.limit`; (ii) if the gateway serves a newest-first
stream of positively-dated records, in non-empty pages with usable next-page
cursors, holding strictly more than `limit` records with date ≥ `start`,
then the pass persists exactly `limit` records and they are precisely the
`limit` most-recent records with date ≥ `start`. -/
theorem insertApiDataArrObjTypeToDb_record_cap :
    (∀ (start limit : Int) (endArg : Option Int) (pages : List Page), 0 ≤ limit →
      (totalInserted (insertApiDataArrObjTypeToDb start limit endArg pages) : Int) ≤ limit) ∧
    (∀ (start limit : Int) (endArg : Option Int) (cs : List (List Rec)) (pages : List Page),
      0 ≤ limit →
      List.Forall₂ PageFor cs pages →
      sortedDesc cs.flatten →
      (∀ r ∈ cs.flatten, 0 < r.date) →
      limit < ((filterGE start cs.flatten).length : Int) →
      (insertApiDataArrObjTypeToDb start limit endArg pages).inserted.flatten
          = (filterGE start cs.flatten).take limit.toNat ∧
        (totalInserted (insertApiDataArrObjTypeToDb start limit endArg pages) : Int) = limit) := by
  constructor
  · exact fun s l e p h => insertApiData_le s l e p h
  · intro s l e cs pages hl hf hsort hpos hlt
    have hmain := insertLoop_exact s l hf e 0 hsort hpos hl (by simpa using hlt)
    have heq : (insertApiDataArrObjTypeToDb s l e pages).inserted.flatten
        = (filterGE s cs.flatten).take l.toNat := by
      simpa [insertApiDataArrObjTypeToDb] using hmain
    refine ⟨heq, ?_⟩
    have hlen := length_flatten_inserted (insertApiDataArrObjTypeToDb s l e pages)
    rw [heq] at hlen
    rw [List.length_take] at hlen
    omega

/-- Closed instance of C1 at a concrete gateway stream. -/
theorem insertApiDataArrObjTypeToDb_record_cap_witness :
    (totalInserted (insertApiDataArrObjTypeToDb 5 2 (some 100)
      [⟨some [⟨10, none, 0⟩], some 1⟩, ⟨some [⟨9, none, 1⟩], some 1⟩,
        ⟨some [⟨8, none, 2⟩], some 1⟩]) : Int) ≤ 2 ∧
    (insertApiDataArrObjTypeToDb 5 2 (some 100)
      [⟨some [⟨10, none, 0⟩], some 1⟩, ⟨some [⟨9, none, 1⟩], some 1⟩,
        ⟨some [⟨8, none, 2⟩], some 1⟩]).inserted.flatten
      = [⟨10, none, 0⟩, ⟨9, none, 1⟩] := by
  constructor
  · exact insertApiDataArrObjTypeToDb_record_cap.1 5 2 (some 100)
      [⟨some [⟨10, none, 0⟩], some 1⟩, ⟨some [⟨9, none, 1⟩], some 1⟩,
        ⟨some [⟨8, none, 2⟩], some 1⟩] (by decide)
  · have h := (insertApiDataArrObjTypeToDb_record_cap.2 5 2 (some 100)
      [[⟨10, none, 0⟩], [⟨9, none, 1⟩], [⟨8, none, 2⟩]]
      [⟨some [⟨10, none, 0⟩], some 1⟩, ⟨some [⟨9, none, 1⟩], some 1⟩,
        ⟨some [⟨8, none, 2⟩], some 1⟩]
      (by decide)
      (List.Forall₂.cons ⟨rfl, by decide, rfl⟩
        (List.Forall₂.cons ⟨rfl, by decide, rfl⟩
          (List.Forall₂.cons ⟨rfl, by decide, rfl⟩ List.Forall₂.nil)))
      (by norm_num [sortedDesc, List.chain'_cons]) (by decide) (by decide)).1
    rw [h]
    decide

/-- C4, counterexample to the claim as stated.  An empty page with integer
next-page cursor 7 is retried, but the retried request's `end` is the
cursor, not the original window's `end` (the window is not "the same"); and
an empty page whose integer cursor is 0 is not retried at all. -/
theorem insertLoop_retry_window_counterexample :
    (insertLoop 0 10 (some 100) 0 0 [⟨some [], some 7⟩, ⟨some [], some 7⟩]).requests
        = [some 100, some 7] ∧
    (insertLoop 0 10 (some 100) 0 0 [⟨some [], some 7⟩, ⟨some [], some 7⟩]).requests.get? 1
        ≠ (insertLoop 0 10 (some 100) 0 0 [⟨some [], some 7⟩, ⟨some [], some 7⟩]).requests.get? 0 ∧
    (insertLoop 0 10 (some 100) 0 0 [⟨some [], some 0⟩, ⟨some [], some 0⟩]).requests
        = [some 100] := by
  decide

/-- C4, amended.  On an empty page carrying a non-zero integer next-page
cursor the loop issues exactly one further request, with the window's `end`
moved to that cursor; if that second page is again empty (with any cursor),
the pass terminates with no record persisted. -/
theorem insertLoop_empty_page_retry (start limit : Int) (e0 : Option Int) (n : Int)
    (hn : n ≠ 0) (p2 : Option Int) (rest : List Page) :
    insertLoop start limit e0 0 0 (⟨some [], some n⟩ :: ⟨some [], p2⟩ :: rest)
      = ⟨[e0, some n], []⟩ := by
  rw [insertLoop]
  rw [if_pos ⟨rfl, by simp [truthyInt, hn], by omega⟩]
  rw [insertLoop]
  rw [if_neg (fun h => absurd h.2.2 (by omega))]

/-- Closed instance of C4 (amended) at a concrete input. -/
theorem insertLoop_empty_page_retry_witness :
    insertLoop 0 10 (some 100) 0 0 [⟨some [], some 7⟩, ⟨some [], some 7⟩]
      = ⟨[some 100, some 7], []⟩ :=
  insertLoop_empty_page_retry 0 10 (some 100) 7 (by decide) (some 7) []

/-- C9.  Whenever a fetched page is non-empty and its oldest (last) record
has date at or below the window's `start`, the loop persists from that page
only records with date ≥ `start` and issues no further request: the single
request recorded is the one that fetched this page. -/
theorem insertLoop_boundary_clip (start limit : Int) (e0 : Option Int) (count : Int)
    (serial : Nat) (np : Option Int) (res : List Rec) (rest : List Page)
    (hne : res ≠ []) (hle : lastDateOf res ≤ start) :
    (insertLoop start limit e0 count serial (⟨some res, np⟩ :: rest)).requests = [e0] ∧
    ∀ r ∈ (insertLoop start limit e0 count serial (⟨some res, np⟩ :: rest)).inserted.flatten,
      start ≤ r.date := by
  obtain ⟨r0, rs, rfl⟩ : ∃ r0 rs, res = r0 :: rs := by
    cases res with
    | nil => exact absurd rfl hne
    | cons x xs => exact ⟨x, xs, rfl⟩
  rw [insertLoop]
  rw [if_neg (fun h => by simp at h)]
  dsimp only
  by_cases h0 : lastDateOf (r0 :: rs) = 0
  · rw [if_pos h0]
    exact ⟨rfl, by simp⟩
  · rw [if_neg h0]
    rw [if_pos (Or.inl (clipPage_snd_of_clip hle))]
    refine ⟨rfl, ?_⟩
    intro r hr
    simp only [List.flatten_cons, List.flatten_nil, List.append_nil] at hr
    exact clipPage_mem_of_clip hle r hr

/-- Closed instance of C9 at a concrete input. -/
theorem insertLoop_boundary_clip_witness :
    (insertLoop 5 10 (some 100) 0 0 [⟨some [⟨6, none, 0⟩, ⟨3, none, 1⟩], some 2⟩]).requests
        = [some 100] ∧
    ∀ r ∈ (insertLoop 5 10 (some 100) 0 0
        [⟨some [⟨6, none, 0⟩, ⟨3, none, 1⟩], some 2⟩]).inserted.flatten,
      5 ≤ r.date :=
  insertLoop_boundary_clip 5 10 (some 100) 0 0 (some 2) [⟨6, none, 0⟩, ⟨3, none, 1⟩] []
    (by decide) (by decide)

/-! ### `_getDataFromApi` (lines 407-453): bounded retry of transient errors -/

/-- Classification of a gateway error by the helpers `isRateLimitError` and
`isNonceSmallError`; `other` covers every unclassified error. -/
inductive ErrKind
  | rateLimit
  | nonceSmall
  | other
deriving DecidableEq, Repr

/-- Result of `_getDataFromApi`: `findMethodError` when the middleware lacks
the method (thrown before any request is issued), `pending` when the
modelled gateway stream ran out while the loop was still retrying, `done`
with the settled outcome otherwise (an `Except.error` is the rethrown
exception). -/
inductive ApiResult (α : Type)
  | findMethodError
  | pending
  | done (r : Except ErrKind α)

/-- The `while (true)` request loop of `_getDataFromApi`, consuming one
gateway outcome per attempt; `cRL` / `cN` are `countRateLimitError` /
`countNonceSmallError`, and `acc` counts requests issued so far.  Returns
the outcome together with the total number of requests issued. -/
def getDataLoop {α : Type} : List (Except ErrKind α) → Nat → Nat → Nat → ApiResult α × Nat
  | [], _, _, acc => (ApiResult.pending, acc)
  | r :: rest, cRL, cN, acc =>
    match r with
    | .ok v => (ApiResult.done (.ok v), acc + 1)
    | .error .rateLimit =>
      if cRL + 1 > 2 then (ApiResult.done (.error .rateLimit), acc + 1)
      else getDataLoop rest (cRL + 1) cN (acc + 1)
    | .error .nonceSmall =>
      if cN + 1 > 20 then (ApiResult.done (.error .nonceSmall), acc + 1)
      else getDataLoop rest cRL (cN + 1) (acc + 1)
    | .error .other => (ApiResult.done (.error .other), acc + 1)

/-- Method `_getDataFromApi`: throws `FindMethodError` before any request when the
middleware lacks the method, otherwise runs the retry loop with both error
counters at 0. -/
def getDataFromApi {α : Type} (hasMethod : Bool)
    (responses : List (Except ErrKind α)) : ApiResult α × Nat :=
  if hasMethod then getDataLoop responses 0 0 0 else (ApiResult.findMethodError, 0)

lemma getDataLoop_rateLimit {α : Type} :
    ∀ (resp : List (Except ErrKind α)) (cRL cN acc : Nat),
      (∀ r ∈ resp, r = Except.error ErrKind.rateLimit) →
      cRL ≤ 2 →
      3 - cRL ≤ resp.length →
      getDataLoop resp cRL cN acc
        = (ApiResult.done (Except.error ErrKind.rateLimit), acc + (3 - cRL)) := by
  intro resp
  induction resp with
  | nil =>
    intro cRL cN acc _ hc hlen
    exfalso
    simp at hlen
    omega
  | cons r rest ih =>
    intro cRL cN acc h hc hlen
    have hr : r = Except.error ErrKind.rateLimit := h r (by simp)
    subst hr
    rw [getDataLoop]
    by_cases h3 : cRL + 1 > 2
    · rw [if_pos h3]
      have hc2 : cRL = 2 := by omega
      subst hc2
      norm_num
    · rw [if_neg h3]
      rw [ih (cRL + 1) cN (acc + 1) (fun x hx => h x (by simp [hx])) (by omega)
        (by simp at hlen ⊢; omega)]
      have : acc + 1 + (3 - (cRL + 1)) = acc + (3 - cRL) := by omega
      rw [this]

lemma getDataLoop_nonceSmall {α : Type} :
    ∀ (resp : List (Except ErrKind α)) (cRL cN acc : Nat),
      (∀ r ∈ resp, r = Except.error ErrKind.nonceSmall) →
      cN ≤ 20 →
      21 - cN ≤ resp.length →
      getDataLoop resp cRL cN acc
        = (ApiResult.done (Except.error ErrKind.nonceSmall), acc + (21 - cN)) := by
  intro resp
  induction resp with
  | nil =>
    intro cRL cN acc _ hc hlen
    exfalso
    simp at hlen
    omega
  | cons r rest ih =>
    intro cRL cN acc h hc hlen
    have hr : r = Except.error ErrKind.nonceSmall := h r (by simp)
    subst hr
    rw [getDataLoop]
    by_cases h21 : cN + 1 > 20
    · rw [if_pos h21]
      have hc2 : cN = 20 := by omega
      subst hc2
      norm_num
    · rw [if_neg h21]
      rw [ih cRL (cN + 1) (acc + 1) (fun x hx => h x (by simp [hx])) (by omega)
        (by simp at hlen ⊢; omega)]
      have : acc + 1 + (21 - (cN + 1)) = acc + (21 - cN) := by omega
      rw [this]

/-- C2.  Retry bounds of `_getDataFromApi`: a gateway that raises a
rate-limit error on every attempt leads to exactly 3 requests (1 initial +
2 retries) before the error is rethrown; one that always raises a
nonce-too-old error leads to exactly 21 requests; any other error is
rethrown immediately after a single request. -/
theorem getDataFromApi_retry_bounds {α : Type} :
    (∀ (resp : List (Except ErrKind α)),
      (∀ r ∈ resp, r = Except.error ErrKind.rateLimit) → 3 ≤ resp.length →
      getDataFromApi true resp = (ApiResult.done (Except.error ErrKind.rateLimit), 3)) ∧
    (∀ (resp : List (Except ErrKind α)),
      (∀ r ∈ resp, r = Except.error ErrKind.nonceSmall) → 21 ≤ resp.length →
      getDataFromApi true resp = (ApiResult.done (Except.error ErrKind.nonceSmall), 21)) ∧
    (∀ (rest : List (Except ErrKind α)),
      getDataFromApi true (Except.error ErrKind.other :: rest)
        = (ApiResult.done (Except.error ErrKind.other), 1)) := by
  refine ⟨fun resp h hlen => ?_, fun resp h hlen => ?_, fun rest => rfl⟩
  · have := getDataLoop_rateLimit resp 0 0 0 h (by omega) (by omega)
    simpa [getDataFromApi] using this
  · have := getDataLoop_nonceSmall resp 0 0 0 h (by omega) (by omega)
    simpa [getDataFromApi] using this

/-- Closed instance of C2 at concrete always-failing gateways. -/
theorem getDataFromApi_retry_bounds_witness :
    getDataFromApi true (List.replicate 3 (Except.error ErrKind.rateLimit) : List (Except ErrKind Nat))
        = (ApiResult.done (Except.error ErrKind.rateLimit), 3) ∧
    getDataFromApi true (List.replicate 21 (Except.error ErrKind.nonceSmall) : List (Except ErrKind Nat))
        = (ApiResult.done (Except.error ErrKind.nonceSmall), 21) ∧
    getDataFromApi true ([Except.error ErrKind.other] : List (Except ErrKind Nat))
        = (ApiResult.done (Except.error ErrKind.other), 1) :=
  ⟨getDataFromApi_retry_bounds.1 _ (fun r hr => List.eq_of_mem_replicate hr) (by simp),
    getDataFromApi_retry_bounds.2.1 _ (fun r hr => List.eq_of_mem_replicate hr) (by simp),
    getDataFromApi_retry_bounds.2.2 []⟩

/-! ### Progress reporting of `insertNewDataToDbMultiUser` (lines 87-195)

The published progress sequence depends on the gateway and DAO only through
the number of collections found to have new data; those counts are the
oracle inputs below, everything else mirrors the source arithmetic. -/

/-- JS `Math.round` for the non-negative finite numbers produced by the
progress formulas: round half up, i.e. `⌊q + 1/2⌋`. -/
def jsRound (q : ℚ) : ℤ :=
  Int.floor (q + 1 / 2)

/-- One credential entry of the stored `Map`: `isObj` is JS
`typeof authItem[1] === 'object'`, `validKeys` means `apiKey` and
`apiSecret` are strings, and `newDataCount` is the size of the filtered
method map `checkNewData` returns for this account. -/
structure Account where
  isObj : Bool
  validKeys : Bool
  newDataCount : Nat
deriving DecidableEq, Repr

/-- A value passed to `setProgress`: a number, or the string
`ERR_AUTH_UNAUTHORIZED`. -/
inductive Progress
  | num (n : ℤ)
  | authErr
deriving DecidableEq, Repr

/-- The values published inside `insertNewDataToDb`'s loop (lines 181-192):
for `count = 1..f`, `Math.round((count / size) * 100 * userProgress)`,
published only while `< 100`. -/
def accountPublished (s f : Nat) (u : ℚ) : List ℤ :=
  ((List.range f).map (fun (c : Nat) => jsRound ((((c : ℚ) + 1) / (s : ℚ)) * 100 * u))).filter
    (fun x => decide (x < 100))

/-- The value `insertNewDataToDb` returns: the last computed `progress`, or
the initial 0 when the filtered map was empty. -/
def accountFinal (s f : Nat) (u : ℚ) : ℤ :=
  if f = 0 then 0 else jsRound (((f : ℚ) / (s : ℚ)) * 100 * u)

/-- Method `insertNewDataToDb` (lines 165-195) as seen through `setProgress`:
invalid credentials publish the unauthorized marker and return `undefined`;
otherwise the loop's numeric values are published and the final progress
returned. -/
def insertNewDataToDbProgress (s : Nat) (u : ℚ) (a : Account) :
    List Progress × Option ℤ :=
  if a.validKeys then
    ((accountPublished s a.newDataCount u).map Progress.num,
      some (accountFinal s a.newDataCount u))
  else ([Progress.authErr], none)

/-- The `for (const authItem of this._auth)` loop of
`insertNewDataToDbMultiUser` (lines 103-111): non-object entries are
skipped, `count` increments only for object entries, and `progress` is
overwritten by each account's return value. -/
def multiUserAccountsLoop (s authSize : Nat) :
    List Account → Nat → Option ℤ → List Progress × Option ℤ
  | [], _, prog => ([], prog)
  | a :: rest, count, prog =>
    if a.isObj then
      let count2 := count + 1
      let r := insertNewDataToDbProgress s (((count2 : Nat) : ℚ) / (authSize : ℚ)) a
      let rrest := multiUserAccountsLoop s authSize rest count2 r.2
      (r.1 ++ rrest.1, rrest.2)
    else
      multiUserAccountsLoop s authSize rest count prog

/-- The values published by `insertNewPublicDataToDb` (lines 144-163):
`Math.round(prevProgress + (count / size) * 100 * ((100 - prevProgress) / 100))`
for `count = 1..p`, published only while `< 100`. -/
def publicPublished (prev : ℤ) (p : Nat) : List ℤ :=
  ((List.range p).map (fun (c : Nat) =>
    jsRound ((prev : ℚ) + (((c : ℚ) + 1) / (p : ℚ)) * 100 * ((100 - (prev : ℚ)) / 100)))).filter
    (fun x => decide (x < 100))

/-- The public pass with `prevProgress` possibly `undefined` (an invalid
last account): arithmetic on `undefined` is `NaN`, every `NaN < 100`
comparison is false, so nothing is published. -/
def insertNewPublicDataToDbProgress : Option ℤ → Nat → List Progress
  | none, _ => []
  | some prev, p => (publicPublished prev p).map Progress.num

/-- Method `insertNewDataToDbMultiUser` (lines 87-117) as seen through
`setProgress`: the unauthorized marker for a missing / non-`Map` / empty
credential store (`auth = none` models the first two), otherwise the
account passes, then the public pass seeded with the last account's
progress, then the terminal `setProgress(100)`. -/
def insertNewDataToDbMultiUserProgress (auth : Option (List Account)) (s p : Nat) :
    List Progress :=
  match auth with
  | none => [Progress.authErr]
  | some accts =>
    if accts.isEmpty then [Progress.authErr]
    else
      let r := multiUserAccountsLoop s accts.length accts 0 (some 0)
      r.1 ++ insertNewPublicDataToDbProgress r.2 p ++ [Progress.num 100]

/-- The numeric progress values of a published sequence, in order. -/
def progressNums (l : List Progress) : List ℤ :=
  l.filterMap (fun x => match x with | Progress.num n => some n | Progress.authErr => none)

/-- C3, counterexample to the claim as stated.  With two well-formed
accounts, three collections each and nothing in the public pass, the
published numeric sequence is `[17, 33, 50, 33, 67, 100]`: it ends at 100
but regresses from 50 to 33 at the account boundary, so it is not
non-decreasing. -/
theorem multiUserProgress_counterexample :
    progressNums (insertNewDataToDbMultiUserProgress
        (some [⟨true, true, 3⟩, ⟨true, true, 3⟩]) 3 0)
      = [17, 33, 50, 33, 67, 100] ∧
    ¬ List.Chain' (fun a b => a ≤ b)
      (progressNums (insertNewDataToDbMultiUserProgress
        (some [⟨true, true, 3⟩, ⟨true, true, 3⟩]) 3 0)) := by
  have hlist : progressNums (insertNewDataToDbMultiUserProgress
      (some [⟨true, true, 3⟩, ⟨true, true, 3⟩]) 3 0) = [17, 33, 50, 33, 67, 100] := by
    simp only [insertNewDataToDbMultiUserProgress, multiUserAccountsLoop,
      insertNewDataToDbProgress, accountPublished, accountFinal,
      insertNewPublicDataToDbProgress, publicPublished, progressNums, jsRound,
      List.range_succ, List.range_zero, List.isEmpty_cons, List.length_cons,
      List.length_nil, List.map_nil, List.map_cons, List.map_append,
      List.filter_nil, List.filter_cons, List.filterMap_nil, List.filterMap_cons,
      List.filterMap_append, List.nil_append, List.append_nil, List.cons_append]
    norm_num [Int.floor_eq_iff]
    decide
  refine ⟨hlist, ?_⟩
  rw [hlist]
  intro h
  simp only [List.chain'_cons, List.chain'_singleton, and_true] at h
  omega

lemma jsRound_mono {a b : ℚ} (h : a ≤ b) : jsRound a ≤ jsRound b :=
  Int.floor_le_floor (by linarith)

lemma accountProgress_arg_mono (s : Nat) (u : ℚ) (hu : 0 ≤ u) {a b : Nat} (h : a < b) :
    (((a : ℚ) + 1) / (s : ℚ)) * 100 * u ≤ (((b : ℚ) + 1) / (s : ℚ)) * 100 * u := by
  rcases Nat.eq_zero_or_pos s with hs | hs
  · subst hs
    norm_num
  · have hs' : (0 : ℚ) < (s : ℚ) := by exact_mod_cast hs
    have h1 : ((a : ℚ) + 1) ≤ ((b : ℚ) + 1) := by
      have : (a : ℚ) ≤ (b : ℚ) := by exact_mod_cast le_of_lt h
      linarith
    have h2 : ((a : ℚ) + 1) / (s : ℚ) ≤ ((b : ℚ) + 1) / (s : ℚ) :=
      (div_le_div_iff_of_pos_right hs').mpr h1
    have h3 := mul_le_mul_of_nonneg_right h2 (by norm_num : (0 : ℚ) ≤ 100)
    exact mul_le_mul_of_nonneg_right h3 hu

/-- C3, amended.  The published sequence always ends at exactly 100 for a
non-empty credential set, and within one account's pass the published
values are non-decreasing; monotonicity can fail only across account
boundaries (see the counterexample). -/
theorem multiUserProgress_final_100 :
    (∀ (accts : List Account) (s p : Nat), accts ≠ [] →
      (insertNewDataToDbMultiUserProgress (some accts) s p).getLast?
        = some (Progress.num 100)) ∧
    (∀ (s f : Nat) (u : ℚ), 0 ≤ u →
      List.Pairwise (fun a b => a ≤ b) (accountPublished s f u)) := by
  constructor
  · intro accts s p hne
    simp only [insertNewDataToDbMultiUserProgress]
    rw [if_neg (by simpa [List.isEmpty_iff] using hne)]
    exact List.getLast?_concat _
  · intro s f u hu
    unfold accountPublished
    apply List.Pairwise.filter
    rw [List.pairwise_map]
    exact (List.pairwise_lt_range f).imp
      (fun hab => jsRound_mono (accountProgress_arg_mono s u hu hab))

/-- Closed instance of C3 (amended) at concrete inputs. -/
theorem multiUserProgress_final_100_witness :
    (insertNewDataToDbMultiUserProgress (some [⟨true, true, 1⟩]) 1 0).getLast?
        = some (Progress.num 100) ∧
    List.Pairwise (fun a b => a ≤ b) (accountPublished 3 3 (1 / 2)) :=
  ⟨multiUserProgress_final_100.1 [⟨true, true, 1⟩] 1 0 (by decide),
    multiUserProgress_final_100.2 3 3 (1 / 2) (by norm_num)⟩

/-! ### `_checkItemNewDataArrObjType` (lines 324-365): account-scoped delta
detection -/

/-- Modelled from the spec: the helper `compareElemsDbAndApi` (imported from
`./helpers`, whose source is not part of this corpus) compares the newest
stored record against the probe's newest record on the schema's date field —
"if the probe's newest date is strictly greater" the stored date
(`lastStoredDate`) is produced, otherwise nothing. -/
def compareElemsDbAndApi (elDb : Rec) (elApi : Rec) : Option Int :=
  if elDb.date < elApi.date then some elDb.date else none

/-- Cursor state `_checkItemNewDataArrObjType` leaves on the schema. -/
structure CheckOut where
  hasNewData : Bool
  start : Int
deriving DecidableEq, Repr

/-- The `params` bundle built by `_getMethodArgMap` (lines 695-719):
`limit` falls back to the schema's `maxLimit` when `null`, `start` defaults
to 0 and `end` to `Date.now()`; the two suppression flags are absent unless
a caller sets them. -/
structure MethodParams where
  limit : Int
  start : Int
  endParam : Int
  notThrowError : Bool
  notCheckNextPage : Bool
deriving DecidableEq, Repr

def getMethodArgMapParams (maxLimit : Int) (limit : Option Int)
    (start now : Int) : MethodParams :=
  { limit := limit.getD maxLimit, start := start, endParam := now,
    notThrowError := false, notCheckNextPage := false }

/-- The probe arguments of lines 331-333: `_getMethodArgMap(method, auth, 1)`
then `notThrowError = true` and `notCheckNextPage = true`. -/
def checkItemProbeArgs (maxLimit now : Int) : MethodParams :=
  let args := getMethodArgMapParams maxLimit (some 1) 0 now
  { args with notThrowError := true, notCheckNextPage := true }

/-- Method `_checkItemNewDataArrObjType` (lines 324-365): `startInit` is the
schema's `start` cursor before the check, `lastElemFromDb` the DAO's newest
stored record for the account, `lastElemFromApi` the probe response (`[]`
models an `isEmpty` result). -/
def checkItemNewDataArrObjType (startInit : Int) (lastElemFromDb : Option Rec)
    (lastElemFromApi : List Rec) : CheckOut :=
  match lastElemFromApi with
  | [] => ⟨false, startInit⟩
  | apiHead :: _ =>
    match lastElemFromDb with
    | none => ⟨true, 0⟩
    | some dbRec =>
      match compareElemsDbAndApi dbRec apiHead with
      | some d => ⟨true, d + 1⟩
      | none => ⟨false, startInit⟩

/-- C5.  The delta detector issues a one-record probe (limit 1, boundary
checks suppressed) and: an empty probe leaves `hasNewData` false; empty
storage plus probe data sets `hasNewData` and `start = 0`; a probe date
strictly above the newest stored date sets `hasNewData` and
`start = lastStoredDate + 1`; otherwise `hasNewData` stays false (so the
collection is skipped this run). -/
theorem checkItemNewDataArrObjType_delta :
    (∀ maxLimit now : Int,
      checkItemProbeArgs maxLimit now = ⟨1, 0, now, true, true⟩) ∧
    (∀ (s0 : Int) (db : Option Rec),
      checkItemNewDataArrObjType s0 db [] = ⟨false, s0⟩) ∧
    (∀ (s0 : Int) (h : Rec) (t : List Rec),
      checkItemNewDataArrObjType s0 none (h :: t) = ⟨true, 0⟩) ∧
    (∀ (s0 : Int) (dbRec h : Rec) (t : List Rec), dbRec.date < h.date →
      checkItemNewDataArrObjType s0 (some dbRec) (h :: t) = ⟨true, dbRec.date + 1⟩) ∧
    (∀ (s0 : Int) (dbRec h : Rec) (t : List Rec), h.date ≤ dbRec.date →
      checkItemNewDataArrObjType s0 (some dbRec) (h :: t) = ⟨false, s0⟩) := by
  refine ⟨fun maxLimit now => rfl, fun s0 db => rfl, fun s0 h t => rfl,
    fun s0 dbRec h t hd => ?_, fun s0 dbRec h t hd => ?_⟩
  · simp only [checkItemNewDataArrObjType, compareElemsDbAndApi, if_pos hd]
  · simp only [checkItemNewDataArrObjType, compareElemsDbAndApi,
      if_neg (not_lt.mpr hd)]

/-- Closed instance of C5 at concrete probes. -/
theorem checkItemNewDataArrObjType_delta_witness :
    checkItemProbeArgs 10000000 777 = ⟨1, 0, 777, true, true⟩ ∧
    checkItemNewDataArrObjType 7 none [⟨9, none, 1⟩] = ⟨true, 0⟩ ∧
    checkItemNewDataArrObjType 7 (some ⟨5, none, 0⟩) [⟨9, none, 1⟩] = ⟨true, 6⟩ ∧
    checkItemNewDataArrObjType 7 (some ⟨5, none, 0⟩) [⟨5, none, 1⟩] = ⟨false, 7⟩ :=
  ⟨checkItemNewDataArrObjType_delta.1 10000000 777,
    checkItemNewDataArrObjType_delta.2.2.1 7 ⟨9, none, 1⟩ [],
    checkItemNewDataArrObjType_delta.2.2.2.1 7 ⟨5, none, 0⟩ ⟨9, none, 1⟩ [] (by decide),
    checkItemNewDataArrObjType_delta.2.2.2.2 7 ⟨5, none, 0⟩ ⟨5, none, 1⟩ [] (by decide)⟩

/-! ### `_updateApiDataArrTypeToDb` / `_updateApiDataArrObjTypeToDb`
(lines 624-693): reconciliation of updatable collections -/

/-- A persisted row of an updatable collection: `keyVals` is the row's
projection to the schema's identity fields, `payload` the rest of the row. -/
structure Row where
  keyVals : List Int
  payload : Nat := 0
deriving DecidableEq, Repr

/-- Modelled from the spec: `dao.removeElemsFromDbIfNotInLists` — "remove
persisted rows whose identity-field values are absent from the fresh
listing". -/
def removeElemsFromDbIfNotInLists (db : List Row) (listing : List Row) : List Row :=
  db.filter (fun r => decide (r.keyVals ∈ listing.map Row.keyVals))

/-- Modelled from the spec: `dao.insertElemsToDbIfNotExists` — an
"identity-based upsert, insert-only": each listed row is appended unless a
row with the same identity values is already present. -/
def insertElemsToDbIfNotExists (db : List Row) (elems : List Row) : List Row :=
  elems.foldl (fun acc e => if e.keyVals ∈ acc.map Row.keyVals then acc else acc ++ [e]) db

/-- Method `_updateApiDataArrObjTypeToDb` (lines 656-693): a `null`/non-array or
empty listing is skipped, otherwise stale rows are removed and missing
listing rows inserted. -/
def updateApiDataArrObjTypeToDb (db : List Row) (elemsFromApi : Option (List Row)) :
    List Row :=
  match elemsFromApi with
  | none => db
  | some elems =>
    if elems.isEmpty then db
    else insertElemsToDbIfNotExists (removeElemsFromDbIfNotInLists db elems) elems

/-- Method `_updateApiDataArrTypeToDb` (lines 624-654): the plain-array variant,
a listing of scalar field values each wrapped as `{ [field]: item }`. -/
def updateApiDataArrTypeToDb (db : List Row) (elemsFromApi : Option (List Int)) :
    List Row :=
  match elemsFromApi with
  | none => db
  | some elems =>
    if elems.isEmpty then db
    else
      insertElemsToDbIfNotExists
        (removeElemsFromDbIfNotInLists db (elems.map (fun v => ⟨[v], 0⟩)))
        (elems.map (fun v => ⟨[v], 0⟩))

lemma mem_keyVals_insertElems (elems : List Row) :
    ∀ (db : List Row) (t : List Int),
      (t ∈ (insertElemsToDbIfNotExists db elems).map Row.keyVals)
        ↔ t ∈ db.map Row.keyVals ∨ t ∈ elems.map Row.keyVals := by
  induction elems with
  | nil => intro db t; simp [insertElemsToDbIfNotExists]
  | cons e rest ih =>
    intro db t
    simp only [insertElemsToDbIfNotExists, List.foldl_cons] at ih ⊢
    by_cases he : e.keyVals ∈ db.map Row.keyVals
    · rw [if_pos he]
      rw [ih db t]
      simp only [List.map_cons, List.mem_cons]
      constructor
      · tauto
      · rintro (h | h | h)
        · exact Or.inl h
        · exact Or.inl (h ▸ he)
        · exact Or.inr h
    · rw [if_neg he]
      rw [ih (db ++ [e]) t]
      simp only [List.map_append, List.map_cons, List.map_nil, List.mem_append,
        List.mem_cons, List.mem_singleton, List.not_mem_nil, or_false]
      tauto

lemma insertElems_append (elems : List Row) :
    ∀ db : List Row, ∃ added : List Row,
      insertElemsToDbIfNotExists db elems = db ++ added ∧ ∀ r ∈ added, r ∈ elems := by
  induction elems with
  | nil => intro db; exact ⟨[], by simp [insertElemsToDbIfNotExists], by simp⟩
  | cons e rest ih =>
    intro db
    simp only [insertElemsToDbIfNotExists, List.foldl_cons] at ih ⊢
    by_cases he : e.keyVals ∈ db.map Row.keyVals
    · rw [if_pos he]
      obtain ⟨added, heq, hmem⟩ := ih db
      exact ⟨added, heq, fun r hr => List.mem_cons_of_mem e (hmem r hr)⟩
    · rw [if_neg he]
      obtain ⟨added, heq, hmem⟩ := ih (db ++ [e])
      refine ⟨e :: added, by rw [heq, List.append_assoc]; rfl, ?_⟩
      intro r hr
      rcases List.mem_cons.mp hr with rfl | hr'
      · exact List.mem_cons_self r rest
      · exact List.mem_cons_of_mem e (hmem r hr')

lemma mem_keyVals_removeElems {db listing : List Row} {t : List Int} :
    t ∈ (removeElemsFromDbIfNotInLists db listing).map Row.keyVals
      ↔ ∃ r ∈ db, r.keyVals = t ∧ t ∈ listing.map Row.keyVals := by
  simp only [removeElemsFromDbIfNotInLists, List.mem_map, List.mem_filter,
    decide_eq_true_eq]
  constructor
  · rintro ⟨r, ⟨hrdb, hrl⟩, rfl⟩
    exact ⟨r, hrdb, rfl, hrl⟩
  · rintro ⟨r, hrdb, rfl, hrl⟩
    exact ⟨r, ⟨hrdb, hrl⟩, rfl⟩

/-- C6, counterexample to the claim as stated.  Against an *empty* full
remote listing the reconciliation is skipped entirely (the
`elemsFromApi.length > 0` guard), so a stale identity value survives even
though it is absent from the listing. -/
theorem updateApiData_empty_listing_counterexample :
    updateApiDataArrTypeToDb [⟨[5], 0⟩] (some []) = [⟨[5], 0⟩] ∧
    [5] ∈ (updateApiDataArrTypeToDb [⟨[5], 0⟩] (some [])).map Row.keyVals ∧
    [5] ∉ (([] : List Int).map (fun v => Row.mk [v] 0)).map Row.keyVals := by
  refine ⟨rfl, by decide, by decide⟩

/-- C6, amended.  For a *non-empty* full remote listing, one reconciliation
pass leaves storage holding exactly the identity-field values of the
listing: stale rows are removed, missing rows inserted, and rows already
present survive untouched; an empty (or non-array) listing skips the pass
and leaves storage unchanged.  Stated for both the array-of-objects and the
plain-array variants. -/
theorem updateApiData_reconciliation :
    (∀ (db : List Row) (elems : List Row), elems ≠ [] →
      (∀ t, t ∈ (updateApiDataArrObjTypeToDb db (some elems)).map Row.keyVals
          ↔ t ∈ elems.map Row.keyVals) ∧
      (∀ r ∈ db, r.keyVals ∈ elems.map Row.keyVals →
        r ∈ updateApiDataArrObjTypeToDb db (some elems))) ∧
    (∀ (db : List Row) (elems : List Int), elems ≠ [] →
      (∀ t, t ∈ (updateApiDataArrTypeToDb db (some elems)).map Row.keyVals
          ↔ t ∈ elems.map (fun v => [v])) ∧
      (∀ r ∈ db, r.keyVals ∈ (elems.map (fun v => Row.mk [v] 0)).map Row.keyVals →
        r ∈ updateApiDataArrTypeToDb db (some elems))) ∧
    (∀ db : List Row, updateApiDataArrObjTypeToDb db (some []) = db ∧
      updateApiDataArrObjTypeToDb db none = db ∧
      updateApiDataArrTypeToDb db (some []) = db ∧
      updateApiDataArrTypeToDb db none = db) := by
  have hcore : ∀ (db : List Row) (elems : List Row), elems ≠ [] →
      (∀ t, t ∈ (insertElemsToDbIfNotExists
            (removeElemsFromDbIfNotInLists db elems) elems).map Row.keyVals
          ↔ t ∈ elems.map Row.keyVals) ∧
      (∀ r ∈ db, r.keyVals ∈ elems.map Row.keyVals →
        r ∈ insertElemsToDbIfNotExists (removeElemsFromDbIfNotInLists db elems) elems) := by
    intro db elems _
    constructor
    · intro t
      rw [mem_keyVals_insertElems]
      constructor
      · rintro (h | h)
        · obtain ⟨r, _, _, hrl⟩ := mem_keyVals_removeElems.mp h
          exact hrl
        · exact h
      · intro h
        exact Or.inr h
    · intro r hrdb hrl
      obtain ⟨added, heq, _⟩ := insertElems_append elems (removeElemsFromDbIfNotInLists db elems)
      rw [heq]
      apply List.mem_append_left
      simp only [removeElemsFromDbIfNotInLists, List.mem_filter, decide_eq_true_eq]
      exact ⟨hrdb, hrl⟩
  refine ⟨fun db elems hne => ?_, fun db elems hne => ?_, fun db => ⟨rfl, rfl, rfl, rfl⟩⟩
  · have hbody : updateApiDataArrObjTypeToDb db (some elems)
        = insertElemsToDbIfNotExists (removeElemsFromDbIfNotInLists db elems) elems := by
      simp only [updateApiDataArrObjTypeToDb]
      rw [if_neg (by simpa [List.isEmpty_iff] using hne)]
    have h := hcore db elems hne
    exact ⟨fun t => by rw [hbody]; exact h.1 t,
      fun r hrdb hrl => by rw [hbody]; exact h.2 r hrdb hrl⟩
  · have hne' : elems.map (fun v => Row.mk [v] 0) ≠ [] := by simpa using hne
    have h := hcore db (elems.map (fun v => Row.mk [v] 0)) hne'
    have hmm : (elems.map (fun v => Row.mk [v] 0)).map Row.keyVals
        = elems.map (fun v => [v]) := by
      rw [List.map_map]
      rfl
    have hbody : updateApiDataArrTypeToDb db (some elems)
        = insertElemsToDbIfNotExists
            (removeElemsFromDbIfNotInLists db (elems.map (fun v => Row.mk [v] 0)))
            (elems.map (fun v => Row.mk [v] 0)) := by
      simp only [updateApiDataArrTypeToDb]
      rw [if_neg (by simpa [List.isEmpty_iff] using hne)]
    constructor
    · intro t
      rw [hbody, ← hmm]
      exact h.1 t
    · intro r hrdb hrl
      rw [hbody]
      exact h.2 r hrdb hrl

/-- Closed instance of C6 (amended) at a concrete listing; note the
surviving row keeps its own payload (never overwritten by the listing). -/
theorem updateApiData_reconciliation_witness :
    updateApiDataArrObjTypeToDb [⟨[1], 5⟩, ⟨[2], 6⟩] (some [⟨[2], 1⟩, ⟨[3], 2⟩])
        = [⟨[2], 6⟩, ⟨[3], 2⟩] ∧
    ((∀ t, t ∈ (updateApiDataArrObjTypeToDb [⟨[1], 5⟩, ⟨[2], 6⟩]
          (some [⟨[2], 1⟩, ⟨[3], 2⟩])).map Row.keyVals
        ↔ t ∈ ([⟨[2], 1⟩, ⟨[3], 2⟩] : List Row).map Row.keyVals) ∧
      (∀ r ∈ ([⟨[1], 5⟩, ⟨[2], 6⟩] : List Row),
        r.keyVals ∈ ([⟨[2], 1⟩, ⟨[3], 2⟩] : List Row).map Row.keyVals →
          r ∈ updateApiDataArrObjTypeToDb [⟨[1], 5⟩, ⟨[2], 6⟩]
            (some [⟨[2], 1⟩, ⟨[3], 2⟩]))) ∧
    updateApiDataArrTypeToDb [⟨[1], 5⟩] (some []) = [⟨[1], 5⟩] :=
  ⟨by decide,
    updateApiData_reconciliation.1 [⟨[1], 5⟩, ⟨[2], 6⟩] [⟨[2], 1⟩, ⟨[3], 2⟩] (by decide),
    (updateApiData_reconciliation.2.2 [⟨[1], 5⟩]).2.2.1⟩

/-! ### `_checkNewConfigurablePublicData` (lines 231-321) and
`_getMethodCollMap` (lines 721-723): per-run schema cursor state -/

/-- The per-symbol cursor object pushed onto `schema.start`. -/
structure StartConf where
  baseStartFrom : Option Int := none
  baseStartTo : Option Int := none
  currStart : Option Int := none
deriving DecidableEq, Repr

/-- The mutable state a configurable public collection's schema object
carries: the `hasNewData` flag and the `start` array onto which per-symbol
entries are pushed. -/
structure ConfSchema where
  hasNewData : Bool
  start : List (String × StartConf)
deriving DecidableEq, Repr

/-- One row of the `publicСollsСonf` table: a symbol and its configured
start date. -/
structure SymbolConf where
  symbol : String
  start : Int
deriving DecidableEq, Repr

/-- The body of the `for (const { symbol, start } of publicСollsСonf)` loop
(lines 248-321) for one symbol: `dbLast` / `dbFirst` are the DAO lookups
with the symbol filter under the schema's sort and its inverse, `apiProbe`
the one-record probe response. -/
def checkConfigStep (dbLast dbFirst : String → Option Rec)
    (apiProbe : String → List Rec) (schema : ConfSchema) (sc : SymbolConf) :
    ConfSchema :=
  match apiProbe sc.symbol with
  | [] => schema
  | h :: _ =>
    -- probe symbol present (truthy string) but different → skip the symbol
    if (match h.symbol with
        | some s => decide (s ≠ "" ∧ s ≠ sc.symbol)
        | none => false) = true then schema
    else
      match dbLast sc.symbol with
      | none =>
        ⟨true, schema.start ++ [(sc.symbol, ⟨none, none, some sc.start⟩)]⟩
      | some dbRec =>
        let lastDateInDb := compareElemsDbAndApi dbRec h
        let conf1 : StartConf :=
          match lastDateInDb with
          | some d => ⟨none, none, some (d + 1)⟩
          | none => ⟨none, none, none⟩
        let hnd1 := schema.hasNewData || lastDateInDb.isSome
        let step2 : StartConf × Bool :=
          match dbFirst sc.symbol with
          | none => (conf1, hnd1)
          | some firstRec =>
            if sc.start < firstRec.date then
              (⟨some sc.start, some (firstRec.date - 1), conf1.currStart⟩, true)
            else (conf1, hnd1)
        ⟨step2.2, schema.start ++ [(sc.symbol, step2.1)]⟩

/-- Method `_checkNewConfigurablePublicData` (lines 231-321): reset `hasNewData`,
return early on an empty configuration, otherwise run the per-symbol loop.
The `start` array is never cleared — entries are only pushed. -/
def checkNewConfigurablePublicData (dbLast dbFirst : String → Option Rec)
    (apiProbe : String → List Rec) (schema0 : ConfSchema)
    (conf : List SymbolConf) : ConfSchema :=
  let schema1 : ConfSchema := ⟨false, schema0.start⟩
  if conf.isEmpty then schema1
  else conf.foldl (checkConfigStep dbLast dbFirst apiProbe) schema1

/-- A `DataInserter` with its `_methodCollMap`: entries map a method name to
a *reference* into `store`, the heap of schema objects shared across runs. -/
structure InserterState where
  methodCollMap : List (String × Nat)
  store : List ConfSchema
deriving DecidableEq, Repr

/-- Method `_getMethodCollMap` (lines 721-723): `new Map(this._methodCollMap)` is a
fresh `Map` holding the same (method, schema-reference) entries; the schema
objects themselves are not copied. -/
def getMethodCollMap (st : InserterState) : List (String × Nat) :=
  st.methodCollMap

/-- One detection pass over the schema object `ref` points to, mutating it
in place on the shared store. -/
def runConfigurableCheck (st : InserterState) (ref : Nat)
    (dbLast dbFirst : String → Option Rec) (apiProbe : String → List Rec)
    (conf : List SymbolConf) : InserterState :=
  match st.store.get? ref with
  | none => st
  | some schema =>
    ⟨st.methodCollMap,
      st.store.set ref (checkNewConfigurablePublicData dbLast dbFirst apiProbe schema conf)⟩

/-- C7, counterexample to the claim as stated.  After one run's detection
pass pushed a per-symbol entry onto `schema.start`, the Map a next run
obtains from `_getMethodCollMap` holds the same reference, and the schema
found there still carries the pushed entry — the mutation is observable by
the subsequent run, so the schemas are not fresh per-run copies. -/
theorem getMethodCollMap_shared_state_counterexample :
    getMethodCollMap (runConfigurableCheck ⟨[("publicTrades", 0)], [⟨false, []⟩]⟩ 0
        (fun _ => (none : Option Rec)) (fun _ => (none : Option Rec))
        (fun _ => [⟨100, some "tBTCUSD", 0⟩]) [⟨"tBTCUSD", 42⟩])
      = [("publicTrades", 0)] ∧
    (runConfigurableCheck ⟨[("publicTrades", 0)], [⟨false, []⟩]⟩ 0
        (fun _ => (none : Option Rec)) (fun _ => (none : Option Rec))
        (fun _ => [⟨100, some "tBTCUSD", 0⟩]) [⟨"tBTCUSD", 42⟩]).store.get? 0
      = some ⟨true, [("tBTCUSD", ⟨none, none, some 42⟩)]⟩ := by
  constructor <;> decide

lemma checkConfigStep_start_append (dbLast dbFirst : String → Option Rec)
    (apiProbe : String → List Rec) (schema : ConfSchema) (sc : SymbolConf) :
    ∃ pushed, (checkConfigStep dbLast dbFirst apiProbe schema sc).start
      = schema.start ++ pushed := by
  unfold checkConfigStep
  cases apiProbe sc.symbol with
  | nil => exact ⟨[], by simp⟩
  | cons h t =>
    dsimp only
    split
    · exact ⟨[], by simp⟩
    · cases dbLast sc.symbol with
      | none => exact ⟨[(sc.symbol, ⟨none, none, some sc.start⟩)], rfl⟩
      | some dbRec => exact ⟨_, rfl⟩

lemma foldl_checkConfigStep_start_append (dbLast dbFirst : String → Option Rec)
    (apiProbe : String → List Rec) :
    ∀ (conf : List SymbolConf) (schema : ConfSchema),
      ∃ pushed, (conf.foldl (checkConfigStep dbLast dbFirst apiProbe) schema).start
        = schema.start ++ pushed := by
  intro conf
  induction conf with
  | nil => intro schema; exact ⟨[], by simp⟩
  | cons sc rest ih =>
    intro schema
    rw [List.foldl_cons]
    obtain ⟨p1, hp1⟩ := checkConfigStep_start_append dbLast dbFirst apiProbe schema sc
    obtain ⟨p2, hp2⟩ := ih (checkConfigStep dbLast dbFirst apiProbe schema sc)
    exact ⟨p1 ++ p2, by rw [hp2, hp1, List.append_assoc]⟩

/-- C7, amended.  `_getMethodCollMap` returns a fresh `Map` over the *same*
schema objects: the map entries a subsequent run sees are unchanged, a
detection pass only ever appends per-symbol entries to `schema.start` (so
pushed cursors persist on the `DataInserter` and accumulate across runs),
and only `hasNewData` is re-derived — reset to `false` — by each pass. -/
theorem getMethodCollMap_shared_state :
    (∀ (st : InserterState) (ref : Nat) (dbLast dbFirst : String → Option Rec)
        (apiProbe : String → List Rec) (conf : List SymbolConf),
      getMethodCollMap (runConfigurableCheck st ref dbLast dbFirst apiProbe conf)
        = getMethodCollMap st) ∧
    (∀ (dbLast dbFirst : String → Option Rec) (apiProbe : String → List Rec)
        (schema : ConfSchema) (conf : List SymbolConf),
      ∃ pushed, (checkNewConfigurablePublicData dbLast dbFirst apiProbe schema conf).start
        = schema.start ++ pushed) ∧
    (∀ (dbLast dbFirst : String → Option Rec) (apiProbe : String → List Rec)
        (schema : ConfSchema),
      checkNewConfigurablePublicData dbLast dbFirst apiProbe schema []
        = ⟨false, schema.start⟩) := by
  refine ⟨fun st ref dbLast dbFirst apiProbe conf => ?_,
    fun dbLast dbFirst apiProbe schema conf => ?_,
    fun dbLast dbFirst apiProbe schema => rfl⟩
  · unfold runConfigurableCheck
    cases h : st.store.get? ref <;> simp [getMethodCollMap]
  · unfold checkNewConfigurablePublicData
    dsimp only
    split
    · exact ⟨[], by simp⟩
    · exact foldl_checkConfigStep_start_append dbLast dbFirst apiProbe conf _

/-! ### `insertNewDataToDbMultiUser` (lines 87-98): missing credentials -/

/-- Result of `getAuthFromDb` when truthy: whether it is a `Map`, and its
size (`none` models a falsy result). -/
structure AuthDb where
  isMap : Bool
  size : Nat
deriving DecidableEq, Repr

/-- An observable effect of a sync run. -/
inductive Event
  | progressNum (n : ℤ)
  | progressMsg (s : String)
  | apiRequest
  | dbInsert
deriving DecidableEq, Repr

/-- Lines 87-98 of `insertNewDataToDbMultiUser` as an event trace, with the
rest of the method (lines 100-116) abstracted as the arbitrary continuation
`rest` — it may emit requests, inserts and progress, or throw: a missing,
non-`Map` or empty credential store publishes the `ERR_AUTH_UNAUTHORIZED`
progress value and returns normally, never reaching the continuation. -/
def insertNewDataToDbMultiUserTrace (auth : Option AuthDb)
    (rest : Except String (List Event)) : Except String (List Event) :=
  match auth with
  | none => Except.ok [Event.progressMsg "ERR_AUTH_UNAUTHORIZED"]
  | some a =>
    if a.isMap = false ∨ a.size = 0 then
      Except.ok [Event.progressMsg "ERR_AUTH_UNAUTHORIZED"]
    else rest

/-- C8.  When the stored credential set is missing, not a `Map`, or empty,
`insertNewDataToDbMultiUser` publishes exactly the distinguished
`ERR_AUTH_UNAUTHORIZED` progress value and returns normally — whatever the
rest of the run would have done: no exception, no gateway request, no DB
insert. -/
theorem multiUserTrace_unauthorized (auth : Option AuthDb)
    (rest : Except String (List Event))
    (h : auth = none ∨ ∃ a, auth = some a ∧ (a.isMap = false ∨ a.size = 0)) :
    insertNewDataToDbMultiUserTrace auth rest
        = Except.ok [Event.progressMsg "ERR_AUTH_UNAUTHORIZED"] ∧
    ∀ evs, insertNewDataToDbMultiUserTrace auth rest = Except.ok evs →
      Event.apiRequest ∉ evs ∧ Event.dbInsert ∉ evs := by
  have heq : insertNewDataToDbMultiUserTrace auth rest
      = Except.ok [Event.progressMsg "ERR_AUTH_UNAUTHORIZED"] := by
    rcases h with rfl | ⟨a, rfl, ha⟩
    · rfl
    · simp only [insertNewDataToDbMultiUserTrace]
      rw [if_pos ha]
  refine ⟨heq, ?_⟩
  intro evs hevs
  rw [heq] at hevs
  injection hevs with h2
  subst h2
  exact ⟨by decide, by decide⟩

/-- Closed instance of C8: the credential store is absent and the
continuation would have thrown — the run still ends normally with the
single unauthorized progress value. -/
theorem multiUserTrace_unauthorized_witness :
    insertNewDataToDbMultiUserTrace none (Except.error "boom")
        = Except.ok [Event.progressMsg "ERR_AUTH_UNAUTHORIZED"] ∧
    ∀ evs, insertNewDataToDbMultiUserTrace none (Except.error "boom") = Except.ok evs →
      Event.apiRequest ∉ evs ∧ Event.dbInsert ∉ evs :=
  multiUserTrace_unauthorized none (Except.error "boom") (Or.inl rfl)

/-! ### The JSON-RPC responder (`src/unnamed/part_000`)

Strings of a gateway error's `response` body enter the embedding already
classified by the two regular expressions of the source
(`/<html.*>/i` and `/<title.*>(?<body>.*)<\/title.*>/i`): `plainBody` for no
html match, `htmlWithTitle` carrying the captured title body, and
`htmlNoTitle` for an html match without a title match — on which
`_findHtmlTitle` evaluates `null.groups` and throws a `TypeError`. -/

/-- Classification of an error by the helper predicates `isAuthError`,
`isRateLimitError`, `isNonceSmallError`, `isUserIsNotMerchantError`,
`isSymbolInvalidError`; `plain` matches none of them. -/
inductive ErrCls
  | auth
  | rateLimit
  | nonceSmall
  | notMerchant
  | symbolInvalid
  | plain
deriving DecidableEq, Repr

/-- A gateway error's `response` body, pre-classified by the two source
regular expressions (see the section comment). -/
inductive BfxResponse
  | missing
  | plainBody (s : String)
  | htmlWithTitle (title : String)
  | htmlNoTitle (s : String)
deriving DecidableEq, Repr

/-- The object `_getBfxApiErrorMetadata` builds; `none` in an optional field
stands for the source's `?? '... is not abailable'` fallback text. -/
structure BfxMeta where
  bfxApiStatus : Int
  bfxApiStatusText : Option String
  bfxApiRawBodyCode : Option Int
  isBfxApiRawBodyResponseHtml : Bool
  bfxApiRawBodyResponse : Option String
deriving DecidableEq, Repr

/-- A value held in an error's `data` field: the `[{ symbol }]` array of the
invalid-symbol branch, an opaque pre-existing payload, or the
`{ bfxApiErrorMessage, ...data }` extension. -/
inductive JsData
  | symbolArr (s : String)
  | raw (n : Nat)
  | nullData
  | extended (meta : BfxMeta) (inner : JsData)
deriving DecidableEq, Repr

/-- An `Error` instance as the responder sees it. -/
structure JsError where
  isBase : Bool
  cls : ErrCls
  message : String
  statusCode : Option Int
  statusMessage : Option String
  data : Option JsData
  status : Option Int
  statusText : Option String
  code : Option Int
  response : BfxResponse
deriving DecidableEq, Repr

/-- A JS value flowing through the responder: `errObj` is an `Error`
instance, everything else is not. -/
inductive JsVal
  | undef
  | str (s : String)
  | num (n : Int)
  | errObj (e : JsError)
deriving DecidableEq, Repr

/-- Value of `args.params.symbol`: a string or an array of strings. -/
inductive SymbolsVal
  | one (s : String)
  | many (l : List String)
deriving DecidableEq, Repr

/-- The `args` bundle of a responder invocation: whether it is an object,
its `id`, and its `params.symbol`. -/
structure RpcArgs where
  isObj : Bool
  id : Option Int
  symbolParam : Option SymbolsVal
deriving DecidableEq, Repr

/-- The payload half of a JSON-RPC 2.0 envelope. -/
inductive RpcPayload
  | result (v : JsVal)
  | error (code : Int) (message : String) (data : Option JsData)
deriving DecidableEq, Repr

/-- A JSON-RPC 2.0 envelope as built by `_makeJsonRpcResponse`. -/
structure Envelope where
  jsonrpc : String
  payload : RpcPayload
  id : Option Int
deriving DecidableEq, Repr

/-- JS `args?.params?.symbol ?? 'selected currency'`, an array rendered by
`Array.prototype.toString` (comma-joined). -/
def symbolOf (args : RpcArgs) : String :=
  match (if args.isObj = true then args.symbolParam else none) with
  | none => "selected currency"
  | some (SymbolsVal.one s) => s
  | some (SymbolsVal.many l) => String.intercalate "," l

/-- JS `String.prototype.replace` with a string pattern: replace only the
first occurrence. -/
def replaceFirst (s pat rep : String) : String :=
  match s.splitOn pat with
  | [] => s
  | [x] => x
  | x :: rest => x ++ rep ++ String.intercalate pat rest

/-- Modelled collaborator: the `BaseError` constructor (from `../errors`,
outside this corpus) built by `_getErrorWithMetadataForNonBaseError` for a
non-object throw; it carries only its message (`'ERR_ERROR_HAS_OCCURRED'`
when none is given) — the 500 / `'Internal Server Error'` envelope values
come from the destructuring defaults of `_getErrorMetadata`. -/
def mkBaseError (msg : Option String) : JsError :=
  ⟨true, ErrCls.plain, msg.getD "ERR_ERROR_HAS_OCCURRED",
    none, none, none, none, none, none, BfxResponse.missing⟩

/-- Function `_getErrorWithMetadataForNonBaseError` (lines 78-129). -/
def getErrorWithMetadataForNonBaseError (args : RpcArgs) (err : JsVal) : JsError :=
  match err with
  | JsVal.str s => mkBaseError (some s)
  | JsVal.undef => mkBaseError none
  | JsVal.num _ => mkBaseError none
  | JsVal.errObj e =>
    if e.isBase = true then e
    else
      match e.cls with
      | ErrCls.auth =>
        { e with statusCode := some 401, statusMessage := some "Unauthorized" }
      | ErrCls.rateLimit =>
        { e with statusCode := some 409, statusMessage := some "Rate limit error" }
      | ErrCls.nonceSmall =>
        { e with statusCode := some 409, statusMessage := some "Nonces error, key are updated, please get new keys to operate" }
      | ErrCls.notMerchant =>
        { e with statusCode := some 409, statusMessage := some "Pay invoice list error, the user is not a merchant" }
      | ErrCls.symbolInvalid =>
        let symbol := symbolOf args
        let msg2 := replaceFirst e.message "]" (",\"" ++ symbol ++ "\"]")
        let statusMsg2 := "Invalid symbol error, '" ++ symbol ++ "' is not supported"
        ⟨e.isBase, e.cls, msg2, some 500, some statusMsg2, some (JsData.symbolArr symbol), e.status, e.statusText, e.code, e.response⟩
      | ErrCls.plain => e

/-- Function `_getBfxApiErrorMetadata` (lines 29-46): `none` when `err.status` is
falsy; a thrown `TypeError` (the `Except.error`) when the body matches the
html regexp but `_findHtmlTitle`'s title regexp does not match
(`res.match(...)` is `null` and reading `.groups` throws). -/
def getBfxApiErrorMetadata (e : JsError) : Except Unit (Option BfxMeta) :=
  match e.status with
  | none => Except.ok none
  | some st =>
    if st = 0 then Except.ok none
    else
      match e.response with
      | BfxResponse.missing =>
        Except.ok (some ⟨st, e.statusText, e.code, false, none⟩)
      | BfxResponse.plainBody s =>
        Except.ok (some ⟨st, e.statusText, e.code, false, some s⟩)
      | BfxResponse.htmlWithTitle t =>
        Except.ok (some ⟨st, e.statusText, e.code, true, some t⟩)
      | BfxResponse.htmlNoTitle _ => Except.error ()

/-- Function `_getErrorMetadata` (lines 131-157): note the returned `data` is the
*pre-extension* data — the bfx metadata lands only on the mutated error
object (used for logging), not in the JSON-RPC envelope. -/
def getErrorMetadata (args : RpcArgs) (errVal : JsVal) :
    Except Unit (Int × String × Option JsData × JsError) :=
  let ewm := getErrorWithMetadataForNonBaseError args errVal
  let code := ewm.statusCode.getD 500
  let message := ewm.statusMessage.getD "Internal Server Error"
  let data := ewm.data
  match (match errVal with
    | JsVal.errObj e => getBfxApiErrorMetadata e
    | _ => Except.ok none) with
  | Except.error u => Except.error u
  | Except.ok bfxMeta =>
    let extendedData := match bfxMeta with
      | some m => some (JsData.extended m (data.getD JsData.nullData))
      | none => data
    Except.ok (code, message, data, ⟨ewm.isBase, ewm.cls, ewm.message, some code, some message, extendedData, ewm.status, ewm.statusText, ewm.code, ewm.response⟩)

/-- Function `_makeJsonRpcResponse` (lines 212-237). -/
def makeJsonRpcResponse (args : RpcArgs) (result : JsVal) : Except Unit Envelope :=
  let id := if args.isObj = true then args.id else none
  match result with
  | JsVal.errObj _ =>
    match getErrorMetadata args result with
    | Except.error u => Except.error u
    | Except.ok (code, message, data, _) =>
      Except.ok ⟨"2.0", RpcPayload.error code message data, id⟩
  | v => Except.ok ⟨"2.0", RpcPayload.result v, id⟩

/-- Function `_logError` (lines 159-206) reduced to its observable control effect:
it computes `_getErrorMetadata` (which can throw) and otherwise only logs. -/
def logErrorStep (args : RpcArgs) (errVal : JsVal) : Except Unit Unit :=
  match getErrorMetadata args errVal with
  | Except.error u => Except.error u
  | Except.ok _ => Except.ok ()

/-- The `TypeError` raised by reading `.groups` of a `null` match result
inside `_findHtmlTitle`. -/
def htmlTitleTypeError : JsError :=
  ⟨false, ErrCls.plain, "Cannot read properties of null (reading 'groups')",
    none, none, none, none, none, none, BfxResponse.missing⟩

/-- The four ways the wrapped handler can come back. -/
inductive HandlerOutcome
  | syncVal (v : JsVal)
  | syncThrow (v : JsVal)
  | promiseVal (v : JsVal)
  | promiseRej (v : JsVal)
deriving DecidableEq, Repr

/-- The value an outcome carries. -/
def outcomeVal : HandlerOutcome → JsVal
  | HandlerOutcome.syncVal v => v
  | HandlerOutcome.syncThrow v => v
  | HandlerOutcome.promiseVal v => v
  | HandlerOutcome.promiseRej v => v

/-- The settled state of a promise an internal request receives back. -/
inductive PromiseOut
  | resolved (v : JsVal)
  | rejected (v : JsVal)
deriving DecidableEq, Repr

/-- What a responder invocation did: the callback invocations (error
argument and response), the plain or promise-shaped return value of an
internal request, and any exception escaping the responder (including an
unhandled rejection of the wrapped promise chain). -/
structure ResponderOut where
  cbCalls : List (Option JsVal × Envelope)
  retSync : Option JsVal
  retPromise : Option PromiseOut
  thrown : Option JsVal
deriving DecidableEq, Repr

/-- The responder (lines 246-300), parameterized over the handler's outcome
and whether a callback was supplied; the callback itself is assumed not to
throw. -/
def responder (args : RpcArgs) (outcome : HandlerOutcome) (cbGiven : Bool) :
    ResponderOut :=
  let isInternalRequest := !cbGiven
  match outcome with
  | HandlerOutcome.syncVal v =>
    if isInternalRequest = true then ⟨[], some v, none, none⟩
    else
      match makeJsonRpcResponse args v with
      | Except.ok env => ⟨[(none, env)], none, none, none⟩
      | Except.error _ =>
        -- the response construction threw inside `try`; the catch block logs
        -- the TypeError (which has no bfx status, so logging cannot throw)
        -- and sends that error's envelope instead
        match makeJsonRpcResponse args (JsVal.errObj htmlTitleTypeError) with
        | Except.ok env2 => ⟨[(none, env2)], none, none, none⟩
        | Except.error _ => ⟨[], none, none, some (JsVal.errObj htmlTitleTypeError)⟩
  | HandlerOutcome.syncThrow e =>
    match logErrorStep args e with
    | Except.error _ => ⟨[], none, none, some (JsVal.errObj htmlTitleTypeError)⟩
    | Except.ok _ =>
      if isInternalRequest = true then ⟨[], none, none, some e⟩
      else
        match makeJsonRpcResponse args e with
        | Except.ok env => ⟨[(none, env)], none, none, none⟩
        | Except.error _ => ⟨[], none, none, some (JsVal.errObj htmlTitleTypeError)⟩
  | HandlerOutcome.promiseVal v =>
    if isInternalRequest = true then ⟨[], none, some (PromiseOut.resolved v), none⟩
    else
      match makeJsonRpcResponse args v with
      | Except.ok env => ⟨[(none, env)], none, none, none⟩
      | Except.error _ =>
        -- the `then` callback threw; the rejection falls to `.catch` with the
        -- TypeError, which is logged and enveloped
        match logErrorStep args (JsVal.errObj htmlTitleTypeError) with
        | Except.error _ => ⟨[], none, none, some (JsVal.errObj htmlTitleTypeError)⟩
        | Except.ok _ =>
          match makeJsonRpcResponse args (JsVal.errObj htmlTitleTypeError) with
          | Except.ok env2 => ⟨[(none, env2)], none, none, none⟩
          | Except.error _ => ⟨[], none, none, some (JsVal.errObj htmlTitleTypeError)⟩
  | HandlerOutcome.promiseRej e =>
    if isInternalRequest = true then
      match logErrorStep args e with
      | Except.ok _ => ⟨[], none, some (PromiseOut.rejected e), none⟩
      | Except.error _ => ⟨[], none, some (PromiseOut.rejected (JsVal.errObj htmlTitleTypeError)), none⟩
    else
      match logErrorStep args e with
      | Except.error _ => ⟨[], none, none, some (JsVal.errObj htmlTitleTypeError)⟩
      | Except.ok _ =>
        match makeJsonRpcResponse args e with
        | Except.ok env => ⟨[(none, env)], none, none, none⟩
        | Except.error _ => ⟨[], none, none, some (JsVal.errObj htmlTitleTypeError)⟩

/-- C10, counterexample to the claim as stated.  (1) A *successful* handler
result that happens to be an `Error` instance is enveloped through the
`result instanceof Error` branch as a JSON-RPC *error*, not as
`{jsonrpc, result, id}`.  (2) A synchronously thrown error whose
bfx-metadata extraction crashes (truthy `status`, HTML body without a
title) escapes the responder from inside the `catch` block before the
callback runs: the callback is never invoked although it was supplied. -/
theorem responder_counterexample :
    responder ⟨true, none, none⟩
        (HandlerOutcome.syncVal (JsVal.errObj
          ⟨false, ErrCls.plain, "boom", none, none, none, none, none, none,
            BfxResponse.missing⟩)) true
      = ⟨[(none, ⟨"2.0", RpcPayload.error 500 "Internal Server Error" none, none⟩)],
          none, none, none⟩ ∧
    (responder ⟨true, none, none⟩
        (HandlerOutcome.syncVal (JsVal.errObj
          ⟨false, ErrCls.plain, "boom", none, none, none, none, none, none,
            BfxResponse.missing⟩)) true).cbCalls
      ≠ [(none, ⟨"2.0", RpcPayload.result (JsVal.errObj
          ⟨false, ErrCls.plain, "boom", none, none, none, none, none, none,
            BfxResponse.missing⟩), none⟩)] ∧
    responder ⟨true, none, none⟩
        (HandlerOutcome.syncThrow (JsVal.errObj
          ⟨false, ErrCls.plain, "boom", none, none, none, some 500, none, none,
            BfxResponse.htmlNoTitle "<html>"⟩)) true
      = ⟨[], none, none, some (JsVal.errObj htmlTitleTypeError)⟩ := by
  refine ⟨?_, ?_, ?_⟩ <;> decide

lemma makeJsonRpcResponse_ok_of_logError (args : RpcArgs) (v : JsVal)
    (h : logErrorStep args v = Except.ok ()) :
    ∃ env, makeJsonRpcResponse args v = Except.ok env := by
  cases v with
  | undef => exact ⟨_, rfl⟩
  | str s => exact ⟨_, rfl⟩
  | num n => exact ⟨_, rfl⟩
  | errObj e =>
    unfold logErrorStep at h
    unfold makeJsonRpcResponse
    cases hm : getErrorMetadata args (JsVal.errObj e) with
    | error u => rw [hm] at h; simp at h
    | ok r =>
      obtain ⟨code, message, data, er⟩ := r
      exact ⟨_, rfl⟩

lemma makeJsonRpcResponse_header (args : RpcArgs) (v : JsVal) (env : Envelope)
    (h : makeJsonRpcResponse args v = Except.ok env) :
    env.jsonrpc = "2.0" ∧ env.id = (if args.isObj = true then args.id else none) := by
  cases v with
  | undef => injection h with h2; subst h2; exact ⟨rfl, rfl⟩
  | str s => injection h with h2; subst h2; exact ⟨rfl, rfl⟩
  | num n => injection h with h2; subst h2; exact ⟨rfl, rfl⟩
  | errObj e =>
    unfold makeJsonRpcResponse at h
    cases hm : getErrorMetadata args (JsVal.errObj e) with
    | error u => rw [hm] at h; simp at h
    | ok r =>
      obtain ⟨code, message, data, er⟩ := r
      rw [hm] at h
      dsimp only at h
      injection h with h2
      subst h2
      exact ⟨rfl, rfl⟩

/-- C10, amended.  With a callback supplied: the callback is invoked exactly
once, with `null` as its error argument and a JSON-RPC 2.0 envelope whose
`id` is `args.id` defaulting to `null`, and the responder does not throw —
provided the outcome's error metadata extraction does not itself crash (see
the counterexample for the crashing case).  A non-`Error` value is enveloped
as `{jsonrpc, result, id}`; an `Error` instance — whether returned, thrown
or rejected — is enveloped as `{jsonrpc, error: {code, message, data}, id}`. -/
theorem responder_jsonrpc_envelope :
    (∀ (args : RpcArgs) (outcome : HandlerOutcome),
      logErrorStep args (outcomeVal outcome) = Except.ok () →
      (responder args outcome true).thrown = none ∧
      ∃ env, (responder args outcome true).cbCalls = [(none, env)] ∧
        makeJsonRpcResponse args (outcomeVal outcome) = Except.ok env ∧
        env.jsonrpc = "2.0" ∧
        env.id = (if args.isObj = true then args.id else none)) ∧
    (∀ (args : RpcArgs) (v : JsVal), (∀ e, v ≠ JsVal.errObj e) →
      makeJsonRpcResponse args v
        = Except.ok ⟨"2.0", RpcPayload.result v,
            if args.isObj = true then args.id else none⟩) ∧
    (∀ (args : RpcArgs) (e : JsError) (env : Envelope),
      makeJsonRpcResponse args (JsVal.errObj e) = Except.ok env →
      ∃ c m d, env.payload = RpcPayload.error c m d) := by
  refine ⟨fun args outcome hsafe => ?_, fun args v hv => ?_, fun args e env h => ?_⟩
  · obtain ⟨env, henv⟩ := makeJsonRpcResponse_ok_of_logError args (outcomeVal outcome) hsafe
    have hhead := makeJsonRpcResponse_header args (outcomeVal outcome) env henv
    cases outcome with
    | syncVal v =>
      simp only [outcomeVal] at hsafe henv hhead
      have hred : responder args (HandlerOutcome.syncVal v) true
          = ⟨[(none, env)], none, none, none⟩ := by
        unfold responder
        dsimp only
        rw [if_neg (by decide : ¬ (!true) = true), henv]
      rw [hred]
      exact ⟨rfl, env, rfl, henv, hhead.1, hhead.2⟩
    | syncThrow e =>
      simp only [outcomeVal] at hsafe henv hhead
      have hred : responder args (HandlerOutcome.syncThrow e) true
          = ⟨[(none, env)], none, none, none⟩ := by
        unfold responder
        dsimp only
        rw [hsafe]
        rw [if_neg (by decide : ¬ (!true) = true), henv]
      rw [hred]
      exact ⟨rfl, env, rfl, henv, hhead.1, hhead.2⟩
    | promiseVal v =>
      simp only [outcomeVal] at hsafe henv hhead
      have hred : responder args (HandlerOutcome.promiseVal v) true
          = ⟨[(none, env)], none, none, none⟩ := by
        unfold responder
        dsimp only
        rw [if_neg (by decide : ¬ (!true) = true), henv]
      rw [hred]
      exact ⟨rfl, env, rfl, henv, hhead.1, hhead.2⟩
    | promiseRej e =>
      simp only [outcomeVal] at hsafe henv hhead
      have hred : responder args (HandlerOutcome.promiseRej e) true
          = ⟨[(none, env)], none, none, none⟩ := by
        unfold responder
        dsimp only
        rw [if_neg (by decide : ¬ (!true) = true), hsafe, henv]
      rw [hred]
      exact ⟨rfl, env, rfl, henv, hhead.1, hhead.2⟩
  · cases v with
    | undef => rfl
    | str s => rfl
    | num n => rfl
    | errObj e => exact absurd rfl (hv e)
  · unfold makeJsonRpcResponse at h
    cases hm : getErrorMetadata args (JsVal.errObj e) with
    | error u => rw [hm] at h; simp at h
    | ok r =>
      obtain ⟨code, message, data, er⟩ := r
      rw [hm] at h
      dsimp only at h
      injection h with h2
      subst h2
      exact ⟨code, message, data, rfl⟩

/-- Closed instance of C10 (amended) at concrete invocations. -/
theorem responder_jsonrpc_envelope_witness :
    ((responder ⟨true, some 7, none⟩ (HandlerOutcome.promiseRej (JsVal.str "oops"))
        true).thrown = none ∧
      ∃ env, (responder ⟨true, some 7, none⟩
          (HandlerOutcome.promiseRej (JsVal.str "oops")) true).cbCalls = [(none, env)] ∧
        makeJsonRpcResponse ⟨true, some 7, none⟩
            (outcomeVal (HandlerOutcome.promiseRej (JsVal.str "oops"))) = Except.ok env ∧
        env.jsonrpc = "2.0" ∧
        env.id = (if (⟨true, some 7, none⟩ : RpcArgs).isObj = true
          then (⟨true, some 7, none⟩ : RpcArgs).id else none)) ∧
    makeJsonRpcResponse ⟨true, some 7, none⟩ (JsVal.num 3)
      = Except.ok ⟨"2.0", RpcPayload.result (JsVal.num 3),
          if (⟨true, some 7, none⟩ : RpcArgs).isObj = true
            then (⟨true, some 7, none⟩ : RpcArgs).id else none⟩ ∧
    (∃ c m d, (⟨"2.0", RpcPayload.error 500 "Internal Server Error" none,
        some 7⟩ : Envelope).payload = RpcPayload.error c m d) :=
  ⟨responder_jsonrpc_envelope.1 ⟨true, some 7, none⟩
      (HandlerOutcome.promiseRej (JsVal.str "oops")) rfl,
    responder_jsonrpc_envelope.2.1 ⟨true, some 7, none⟩ (JsVal.num 3)
      (fun e h => by simp at h),
    responder_jsonrpc_envelope.2.2 ⟨true, some 7, none⟩
      ⟨false, ErrCls.plain, "boom", none, none, none, none, none, none,
        BfxResponse.missing⟩
      ⟨"2.0", RpcPayload.error 500 "Internal Server Error" none, some 7⟩
      rfl⟩

end BfxReport
